import Mathlib

/-!
Shallow embedding of `src/01_hash_split/hash_split.py`.

The Python module implements a deterministic hash-based A/B splitter:
`ABSplitter._hash_to_float` hashes `f"{salt}_{value}"` with SHA-256, takes
the first 8 digest bytes as a big-endian unsigned integer and divides by
2^64; `ABSplitter.get_group` validates the weights with
`np.isclose(sum(weights), 1.0)` and then scans cumulative weights,
returning the first group whose cumulative boundary exceeds the bucket
value, falling back to `groups[-1]`.

Numbers are embedded exactly: bytes and 32-bit words are `Nat` reduced
modulo the word size where the source arithmetic wraps, and the real
arithmetic of buckets and weights is `ℚ`.
-/

namespace HashSplit

/-- `int.from_bytes(bs, 'big')`: big-endian interpretation of a byte list. -/
def fromBytesBE : List Nat → Nat
  | [] => 0
  | b :: rest => b * 256 ^ rest.length + fromBytesBE rest

namespace SHA256

/-- The 32-bit word modulus. -/
def w32 : Nat := 2 ^ 32

/-- Right rotation of a 32-bit word. -/
def rotr (n x : Nat) : Nat := ((x >>> n) ||| (x <<< (32 - n))) % w32

/-- SHA-256 `Ch` function (`¬x` as xor with the all-ones word). -/
def ch (x y z : Nat) : Nat := (x &&& y) ^^^ ((x ^^^ (w32 - 1)) &&& z)

/-- SHA-256 `Maj` function. -/
def maj (x y z : Nat) : Nat := (x &&& y) ^^^ (x &&& z) ^^^ (y &&& z)

/-- SHA-256 Σ₀. -/
def bsig0 (x : Nat) : Nat := rotr 2 x ^^^ rotr 13 x ^^^ rotr 22 x

/-- SHA-256 Σ₁. -/
def bsig1 (x : Nat) : Nat := rotr 6 x ^^^ rotr 11 x ^^^ rotr 25 x

/-- SHA-256 σ₀. -/
def ssig0 (x : Nat) : Nat := rotr 7 x ^^^ rotr 18 x ^^^ (x >>> 3)

/-- SHA-256 σ₁. -/
def ssig1 (x : Nat) : Nat := rotr 17 x ^^^ rotr 19 x ^^^ (x >>> 10)

/-- The 64 SHA-256 round constants, in groups of four. -/
def K : List Nat :=
  [0x428a2f98, 0x71374491, 0xb5c0fbcf, 0xe9b5dba5] ++
  [0x3956c25b, 0x59f111f1, 0x923f82a4, 0xab1c5ed5] ++
  [0xd807aa98, 0x12835b01, 0x243185be, 0x550c7dc3] ++
  [0x72be5d74, 0x80deb1fe, 0x9bdc06a7, 0xc19bf174] ++
  [0xe49b69c1, 0xefbe4786, 0x0fc19dc6, 0x240ca1cc] ++
  [0x2de92c6f, 0x4a7484aa, 0x5cb0a9dc, 0x76f988da] ++
  [0x983e5152, 0xa831c66d, 0xb00327c8, 0xbf597fc7] ++
  [0xc6e00bf3, 0xd5a79147, 0x06ca6351, 0x14292967] ++
  [0x27b70a85, 0x2e1b2138, 0x4d2c6dfc, 0x53380d13] ++
  [0x650a7354, 0x766a0abb, 0x81c2c92e, 0x92722c85] ++
  [0xa2bfe8a1, 0xa81a664b, 0xc24b8b70, 0xc76c51a3] ++
  [0xd192e819, 0xd6990624, 0xf40e3585, 0x106aa070] ++
  [0x19a4c116, 0x1e376c08, 0x2748774c, 0x34b0bcb5] ++
  [0x391c0cb3, 0x4ed8aa4a, 0x5b9cca4f, 0x682e6ff3] ++
  [0x748f82ee, 0x78a5636f, 0x84c87814, 0x8cc70208] ++
  [0x90befffa, 0xa4506ceb, 0xbef9a3f7, 0xc67178f2]

/-- The eight working registers of the compression function. -/
structure Regs where
  ra : Nat
  rb : Nat
  rc : Nat
  rd : Nat
  re : Nat
  rf : Nat
  rg : Nat
  rh : Nat

/-- Initial hash value H⁽⁰⁾. -/
def initRegs : Regs :=
  ⟨0x6a09e667, 0xbb67ae85, 0x3c6ef372, 0xa54ff53a, 0x510e527f, 0x9b05688c, 0x1f83d9ab, 0x5be0cd19⟩

/-- Group a byte list into big-endian 32-bit words. -/
def toWords : List Nat → List Nat
  | b0 :: b1 :: b2 :: b3 :: rest => (((b0 * 256 + b1) * 256 + b2) * 256 + b3) :: toWords rest
  | _ => []

/-- The next message-schedule word from the words so far. -/
def nextWord (ws : List Nat) : Nat :=
  let t := ws.length
  (ssig1 (ws.getD (t - 2) 0) + ws.getD (t - 7) 0 + ssig0 (ws.getD (t - 15) 0) + ws.getD (t - 16) 0) % w32

/-- Extend the message schedule by `n` words. -/
def extendWords : Nat → List Nat → List Nat
  | 0, ws => ws
  | n + 1, ws => extendWords n (ws ++ [nextWord ws])

/-- The 64-word message schedule of one 16-word block. -/
def schedule (block : List Nat) : List Nat := extendWords 48 (toWords block)

/-- One compression round. -/
def round (s : Regs) (k w : Nat) : Regs :=
  let t1 := (s.rh + bsig1 s.re + ch s.re s.rf s.rg + k + w) % w32
  let t2 := (bsig0 s.ra + maj s.ra s.rb s.rc) % w32
  ⟨(t1 + t2) % w32, s.ra, s.rb, s.rc, (s.rd + t1) % w32, s.re, s.rf, s.rg⟩

/-- Compress one 64-byte block into the hash state. -/
def compress (s : Regs) (block : List Nat) : Regs :=
  let t := (K.zip (schedule block)).foldl (fun st kw => round st kw.1 kw.2) s
  ⟨(s.ra + t.ra) % w32, (s.rb + t.rb) % w32, (s.rc + t.rc) % w32, (s.rd + t.rd) % w32,
   (s.re + t.re) % w32, (s.rf + t.rf) % w32, (s.rg + t.rg) % w32, (s.rh + t.rh) % w32⟩

/-- Big-endian bytes of a 64-bit length field. -/
def be64 (n : Nat) : List Nat :=
  [(n >>> 56) % 256, (n >>> 48) % 256, (n >>> 40) % 256, (n >>> 32) % 256,
   (n >>> 24) % 256, (n >>> 16) % 256, (n >>> 8) % 256, n % 256]

/-- Big-endian bytes of a 32-bit word. -/
def be32 (n : Nat) : List Nat :=
  [(n >>> 24) % 256, (n >>> 16) % 256, (n >>> 8) % 256, n % 256]

/-- SHA-256 padding: `0x80`, zeros to 56 mod 64, then the bit length. -/
def pad (msg : List Nat) : List Nat :=
  let L := msg.length
  let z := (119 - L % 64) % 64
  msg ++ 0x80 :: List.replicate z 0 ++ be64 (8 * L)

/-- Split a byte list into 64-byte blocks (fuel-driven for structural recursion). -/
def chunksAux : Nat → List Nat → List (List Nat)
  | 0, _ => []
  | _, [] => []
  | fuel + 1, l => l.take 64 :: chunksAux fuel (l.drop 64)

/-- Serialize the final state as the 32-byte digest. -/
def digestBytes (r : Regs) : List Nat :=
  be32 r.ra ++ be32 r.rb ++ be32 r.rc ++ be32 r.rd ++ be32 r.re ++ be32 r.rf ++ be32 r.rg ++ be32 r.rh

/-- `hashlib.sha256(msg).digest()` over a byte list. -/
def sha256 (msg : List Nat) : List Nat :=
  digestBytes ((chunksAux (pad msg).length (pad msg)).foldl compress initRegs)

end SHA256

/-- UTF-8 encoding of one character (`str.encode()` is UTF-8 in Python). -/
def utf8Char (c : Char) : List Nat :=
  let n := c.toNat
  if n < 0x80 then [n]
  else if n < 0x800 then [0xC0 ||| (n >>> 6), 0x80 ||| (n &&& 0x3F)]
  else if n < 0x10000 then
    [0xE0 ||| (n >>> 12), 0x80 ||| ((n >>> 6) &&& 0x3F), 0x80 ||| (n &&& 0x3F)]
  else
    [0xF0 ||| (n >>> 18), 0x80 ||| ((n >>> 12) &&& 0x3F), 0x80 ||| ((n >>> 6) &&& 0x3F),
     0x80 ||| (n &&& 0x3F)]

/-- `combined.encode()`: UTF-8 bytes of a string. -/
def utf8Encode (s : String) : List Nat := s.data.flatMap utf8Char

/-- The values passed as `user_id` in the source: Python ints and strings. -/
inductive PyVal where
  | pyInt : Int → PyVal
  | pyStr : String → PyVal
deriving DecidableEq

/-- Python `str(value)` / f-string rendering of a `PyVal`. -/
def PyVal.render : PyVal → String
  | .pyInt n => toString n
  | .pyStr s => s

/-- The exception kinds the source can raise inside `get_group`. -/
inductive PyErr where
  | valueError
  | indexError
  | zeroDivisionError
deriving DecidableEq

/-- `np.isclose(a, b)` with numpy defaults `rtol=1e-5`, `atol=1e-8`:
`|a - b| <= atol + rtol * |b|`. -/
def npIsclose (a b : ℚ) : Bool := decide (|a - b| ≤ 1 / 100000000 + 1 / 100000 * |b|)

/-- The `ABSplitter` class: its only state is the salt given at construction. -/
structure ABSplitter where
  salt : String

/-- The string `f"{self.salt}_{value}"` hashed by `_hash_to_float`. -/
def hashInput (salt : String) (value : PyVal) : String := salt ++ "_" ++ value.render

/-- `ABSplitter._hash_to_float`: SHA-256 the combined string, take the first
8 digest bytes big-endian, divide by `2^64`. -/
def ABSplitter.hash_to_float (self : ABSplitter) (value : PyVal) : ℚ :=
  let hashBytes := SHA256.sha256 (utf8Encode (hashInput self.salt value))
  (fromBytesBE (hashBytes.take 8) : ℚ) / 2 ^ 64

/-- The `for group, weight in zip(groups, weights)` loop of `get_group`:
accumulate `cumulative += weight` and return the first group with
`bucket < cumulative`. -/
def assignScan (bucket : ℚ) : List (String × ℚ) → ℚ → Option String
  | [], _ => none
  | (g, w) :: rest, c =>
    if bucket < c + w then some g else assignScan bucket rest (c + w)

/-- Lines 63–68 of the source: the cumulative scan with the `groups[-1]`
fallback (`none` only when `groups` is empty, where `groups[-1]` raises). -/
def bucketAssign (bucket : ℚ) (groups : List String) (weights : List ℚ) : Option String :=
  match assignScan bucket (groups.zip weights) 0 with
  | some g => some g
  | none => groups.getLast?

/-- `ABSplitter.get_group`: default the groups and weights, validate the
weight sum with `np.isclose`, hash the user id and scan the buckets. -/
def ABSplitter.get_group (self : ABSplitter) (user_id : PyVal)
    (groupsOpt : Option (List String)) (weightsOpt : Option (List ℚ)) : Except PyErr String :=
  let groups := groupsOpt.getD ["control", "test"]
  let weightsE : Except PyErr (List ℚ) :=
    match weightsOpt with
    | some w => Except.ok w
    | none =>
      if groups.length = 0 then Except.error PyErr.zeroDivisionError
      else Except.ok (List.replicate groups.length ((1 : ℚ) / (groups.length : ℚ)))
  match weightsE with
  | Except.error e => Except.error e
  | Except.ok weights =>
    if npIsclose weights.sum 1 = false then Except.error PyErr.valueError
    else
      let bucket := self.hash_to_float user_id
      match bucketAssign bucket groups weights with
      | some g => Except.ok g
      | none => Except.error PyErr.indexError

/-! ### Range of the derived uniform sample -/

theorem SHA256.be32_mem_lt {b n : Nat} (h : b ∈ SHA256.be32 n) : b < 256 := by
  simp only [SHA256.be32, List.mem_cons, List.not_mem_nil, or_false] at h
  rcases h with h | h | h | h <;> subst h <;> omega

theorem SHA256.digestBytes_mem_lt {b : Nat} {r : SHA256.Regs}
    (h : b ∈ SHA256.digestBytes r) : b < 256 := by
  simp only [SHA256.digestBytes, List.mem_append] at h
  rcases h with ((((((h | h) | h) | h) | h) | h) | h) | h <;> exact SHA256.be32_mem_lt h

theorem sha256_mem_lt {b : Nat} {msg : List Nat} (h : b ∈ SHA256.sha256 msg) : b < 256 :=
  SHA256.digestBytes_mem_lt h

theorem fromBytesBE_lt {bs : List Nat} (h : ∀ b ∈ bs, b < 256) :
    fromBytesBE bs < 256 ^ bs.length := by
  induction bs with
  | nil => simp [fromBytesBE]
  | cons b rest ih =>
    have hb : b < 256 := h b (List.mem_cons_self b rest)
    have hrest : fromBytesBE rest < 256 ^ rest.length :=
      ih fun x hx => h x (List.mem_cons_of_mem b hx)
    have hb' : b * 256 ^ rest.length ≤ 255 * 256 ^ rest.length :=
      Nat.mul_le_mul_right _ (by omega)
    simp only [fromBytesBE, List.length_cons, pow_succ]
    calc b * 256 ^ rest.length + fromBytesBE rest
        < b * 256 ^ rest.length + 256 ^ rest.length := by omega
      _ ≤ 255 * 256 ^ rest.length + 256 ^ rest.length := by omega
      _ = 256 ^ rest.length * 256 := by ring

theorem fromBytesBE_take8_lt (msg : List Nat) :
    fromBytesBE ((SHA256.sha256 msg).take 8) < 2 ^ 64 := by
  have hmem : ∀ b ∈ (SHA256.sha256 msg).take 8, b < 256 := fun b hb =>
    sha256_mem_lt (List.take_subset 8 _ hb)
  have h1 : fromBytesBE ((SHA256.sha256 msg).take 8) < 256 ^ ((SHA256.sha256 msg).take 8).length :=
    fromBytesBE_lt hmem
  have h2 : ((SHA256.sha256 msg).take 8).length ≤ 8 := by
    simp [List.length_take]
  have h3 : (256 : Nat) ^ ((SHA256.sha256 msg).take 8).length ≤ 256 ^ 8 :=
    Nat.pow_le_pow_right (by norm_num) h2
  have : (256 : Nat) ^ 8 = 2 ^ 64 := by norm_num
  omega

theorem hash_to_float_nonneg (self : ABSplitter) (v : PyVal) : 0 ≤ self.hash_to_float v := by
  unfold ABSplitter.hash_to_float
  positivity

theorem hash_to_float_lt_one (self : ABSplitter) (v : PyVal) : self.hash_to_float v < 1 := by
  unfold ABSplitter.hash_to_float
  rw [div_lt_one (by positivity)]
  have h := fromBytesBE_take8_lt (utf8Encode (hashInput self.salt v))
  calc (fromBytesBE ((SHA256.sha256 (utf8Encode (hashInput self.salt v))).take 8) : ℚ)
      < ((2 ^ 64 : Nat) : ℚ) := by exact_mod_cast h
    _ = 2 ^ 64 := by push_cast; ring

/-! ### Behaviour of the cumulative scan -/

theorem zip_map_snd : ∀ (l₁ : List String) (l₂ : List ℚ), l₁.length = l₂.length →
    (l₁.zip l₂).map Prod.snd = l₂
  | [], [], _ => rfl
  | [], _ :: _, h => by simp at h
  | _ :: _, [], h => by simp at h
  | a :: l₁, b :: l₂, h => by
    have ih := zip_map_snd l₁ l₂ (by simpa using h)
    simp [List.zip_cons_cons, ih]

theorem zip_getElem?_eq : ∀ (l₁ : List String) (l₂ : List ℚ) (i : Nat) (p : String × ℚ),
    (l₁.zip l₂)[i]? = some p → l₁[i]? = some p.1 ∧ l₂[i]? = some p.2
  | [], _, i, p, h => by simp at h
  | _ :: _, [], i, p, h => by simp at h
  | a :: l₁, b :: l₂, 0, p, h => by
    simp only [List.zip_cons_cons, List.getElem?_cons_zero, Option.some.injEq] at h ⊢
    simp [← h]
  | a :: l₁, b :: l₂, i + 1, p, h => by
    simp only [List.zip_cons_cons, List.getElem?_cons_succ] at h ⊢
    exact zip_getElem?_eq l₁ l₂ i p h

theorem assignScan_interval (sample : ℚ) :
    ∀ (groups : List String) (weights : List ℚ) (c : ℚ) (i : Nat),
      groups.length = weights.length →
      (∀ w ∈ weights, 0 ≤ w) →
      i < groups.length →
      c + (weights.take i).sum ≤ sample →
      sample < c + (weights.take (i + 1)).sum →
      assignScan sample (groups.zip weights) c = groups[i]? := by
  intro groups
  induction groups with
  | nil => intro weights c i _ _ hi _ _; simp at hi
  | cons g gs ih =>
    intro weights c i hlen hnn hi hlow hhigh
    cases weights with
    | nil => simp at hlen
    | cons w ws =>
      simp only [List.zip_cons_cons, assignScan]
      cases i with
      | zero =>
        have hlt : sample < c + w := by
          simpa [List.take_succ_cons, List.sum_cons] using hhigh
        rw [if_pos hlt]
        simp
      | succ j =>
        have hts : 0 ≤ (ws.take j).sum :=
          List.sum_nonneg fun x hx =>
            hnn x (List.mem_cons_of_mem _ (List.take_subset _ _ hx))
        have hlow' : c + w + (ws.take j).sum ≤ sample := by
          simp only [List.take_succ_cons, List.sum_cons] at hlow
          linarith
        have hnless : ¬ sample < c + w := by linarith
        rw [if_neg hnless]
        have hhigh' : sample < c + w + (ws.take (j + 1)).sum := by
          simp only [List.take_succ_cons, List.sum_cons] at hhigh
          linarith
        have := ih ws (c + w) j (by simpa using hlen)
          (fun x hx => hnn x (List.mem_cons_of_mem _ hx))
          (by simpa using hi) hlow' hhigh'
        simpa using this

theorem assignScan_ge_none (sample : ℚ) :
    ∀ (pairs : List (String × ℚ)) (c : ℚ),
      (∀ i : Nat, c + (((pairs.take i).map Prod.snd).sum) ≤ sample) →
      assignScan sample pairs c = none := by
  intro pairs
  induction pairs with
  | nil => intro c _; rfl
  | cons p rest ih =>
    intro c h
    obtain ⟨g, w⟩ := p
    have h1 : c + w ≤ sample := by simpa using h 1
    simp only [assignScan, if_neg (not_lt.mpr h1)]
    refine ih (c + w) fun i => ?_
    have := h (i + 1)
    simp only [List.take_succ_cons, List.map_cons, List.sum_cons] at this
    linarith

theorem assignScan_some_mem (sample : ℚ) :
    ∀ (pairs : List (String × ℚ)) (c : ℚ) (g : String),
      assignScan sample pairs c = some g → ∃ p ∈ pairs, p.1 = g := by
  intro pairs
  induction pairs with
  | nil => intro c g h; simp [assignScan] at h
  | cons p rest ih =>
    intro c g h
    obtain ⟨a, w⟩ := p
    simp only [assignScan] at h
    by_cases hlt : sample < c + w
    · rw [if_pos hlt] at h
      exact ⟨(a, w), List.mem_cons_self _ _, by simpa using h⟩
    · rw [if_neg hlt] at h
      obtain ⟨q, hq, hq1⟩ := ih (c + w) g h
      exact ⟨q, List.mem_cons_of_mem _ hq, hq1⟩

theorem assignScan_some_pos (sample : ℚ) :
    ∀ (pairs : List (String × ℚ)) (c : ℚ) (g : String),
      c ≤ sample → assignScan sample pairs c = some g →
      ∃ (i : Nat) (p : String × ℚ), pairs[i]? = some p ∧ p.1 = g ∧ 0 < p.2 := by
  intro pairs
  induction pairs with
  | nil => intro c g _ h; simp [assignScan] at h
  | cons p rest ih =>
    intro c g hc h
    obtain ⟨a, w⟩ := p
    simp only [assignScan] at h
    by_cases hlt : sample < c + w
    · rw [if_pos hlt] at h
      refine ⟨0, (a, w), by simp, by simpa using h, ?_⟩
      linarith
    · rw [if_neg hlt] at h
      obtain ⟨i, q, hq, hq1, hq2⟩ := ih (c + w) g (by linarith [not_lt.mp hlt]) h
      exact ⟨i + 1, q, by simpa using hq, hq1, hq2⟩

theorem assignScan_none_ge (sample : ℚ) :
    ∀ (pairs : List (String × ℚ)) (c : ℚ),
      assignScan sample pairs c = none →
      pairs = [] ∨ c + ((pairs.map Prod.snd).sum) ≤ sample := by
  intro pairs
  induction pairs with
  | nil => intro c _; exact Or.inl rfl
  | cons p rest ih =>
    intro c h
    obtain ⟨a, w⟩ := p
    simp only [assignScan] at h
    by_cases hlt : sample < c + w
    · rw [if_pos hlt] at h; simp at h
    · rw [if_neg hlt] at h
      refine Or.inr ?_
      rcases ih (c + w) h with hnil | hge
      · subst hnil
        simpa using not_lt.mp hlt
      · simp only [List.map_cons, List.sum_cons]
        linarith

/-! ### Shared concrete-configuration lemmas -/

theorem npIsclose_half_half : npIsclose ([1/2, 1/2] : List ℚ).sum 1 = true := by
  simp only [npIsclose, List.sum_cons, List.sum_nil, decide_eq_true_eq]
  norm_num

theorem npIsclose_two_negone : npIsclose ([2, -1] : List ℚ).sum 1 = true := by
  simp only [npIsclose, List.sum_cons, List.sum_nil, decide_eq_true_eq]
  norm_num

theorem npIsclose_one : npIsclose ([1] : List ℚ).sum 1 = true := by
  simp only [npIsclose, List.sum_cons, List.sum_nil, decide_eq_true_eq]
  norm_num

theorem npIsclose_three_halves : npIsclose ([1/2, 1/2, 1/2] : List ℚ).sum 1 = false := by
  simp only [npIsclose, List.sum_cons, List.sum_nil, decide_eq_false_iff_not, not_le]
  rw [abs_of_nonneg (by norm_num : (0:ℚ) ≤ 1), abs_of_nonneg (by norm_num)]
  norm_num

/-- Evaluation view of `get_group` on explicit groups and weights when the
validation passes and the scan finds a group. -/
theorem get_group_eval (salt : String) (uid : PyVal) (groups : List String)
    (weights : List ℚ) (g : String)
    (hcl : npIsclose weights.sum 1 = true)
    (hscan : assignScan ((ABSplitter.mk salt).hash_to_float uid) (groups.zip weights) 0
      = some g) :
    (ABSplitter.mk salt).get_group uid (some groups) (some weights) = Except.ok g := by
  simp [ABSplitter.get_group, hcl, bucketAssign, hscan]

/-- Evaluation view of `get_group` on explicit groups and weights when the
validation fails: the `ValueError` is raised before any hashing matters. -/
theorem get_group_invalid (salt : String) (uid : PyVal) (groups : List String)
    (weights : List ℚ) (hcl : npIsclose weights.sum 1 = false) :
    (ABSplitter.mk salt).get_group uid (some groups) (some weights)
      = Except.error PyErr.valueError := by
  simp [ABSplitter.get_group, hcl]

/-- `get_group` with weights `[2, -1]`: the sum is 1, validation passes, and
the first interval `[0, 2)` swallows every bucket, so the call succeeds. -/
theorem get_group_neg_weight_ok (salt : String) (uid : PyVal) :
    (ABSplitter.mk salt).get_group uid (some ["a", "b"]) (some [2, -1]) = Except.ok "a" := by
  have hb1 : (ABSplitter.mk salt).hash_to_float uid < 1 := hash_to_float_lt_one _ _
  refine get_group_eval salt uid _ _ _ npIsclose_two_negone ?_
  simp only [List.zip_cons_cons, List.zip_nil_right, assignScan]
  rw [if_pos (by linarith)]

/-- `get_group` with 2 groups but a single weight `[1]`: the sum is 1,
validation passes, `zip` silently drops the second group, and the single
interval `[0, 1)` contains every bucket. -/
theorem get_group_len_mismatch_ok (salt : String) (uid : PyVal) :
    (ABSplitter.mk salt).get_group uid (some ["a", "b"]) (some [1]) = Except.ok "a" := by
  have hb1 : (ABSplitter.mk salt).hash_to_float uid < 1 := hash_to_float_lt_one _ _
  refine get_group_eval salt uid _ _ _ npIsclose_one ?_
  simp only [List.zip_cons_cons, List.zip_nil_right, assignScan]
  rw [if_pos (by linarith)]

/-- `get_group` with 2 groups and weights `[0.5, 0.5, 0.5]`: the sum 1.5
fails `np.isclose`, so the call raises `ValueError`. -/
theorem get_group_len_mismatch_err (salt : String) (uid : PyVal) :
    (ABSplitter.mk salt).get_group uid (some ["a", "b"]) (some [1/2, 1/2, 1/2])
      = Except.error PyErr.valueError :=
  get_group_invalid salt uid _ _ npIsclose_three_halves

/-! ### The claims -/

/-- C1: for every salt string `s` and identifier string `v`, `_hash_to_float`
returns exactly the first 8 bytes of the SHA-256 digest of `s ++ "_" ++ v`
interpreted as a big-endian unsigned integer divided by `2^64`, and this
value lies in `[0, 1)`. -/
theorem C1_hash_to_float_exact (s v : String) :
    (ABSplitter.mk s).hash_to_float (PyVal.pyStr v)
      = (fromBytesBE ((SHA256.sha256 (utf8Encode (s ++ "_" ++ v))).take 8) : ℚ) / 2 ^ 64
    ∧ 0 ≤ (ABSplitter.mk s).hash_to_float (PyVal.pyStr v)
    ∧ (ABSplitter.mk s).hash_to_float (PyVal.pyStr v) < 1 :=
  ⟨rfl, hash_to_float_nonneg _ _, hash_to_float_lt_one _ _⟩

/-- C2: for a valid group specification and a sample in `[0, 1)`, the bucket
scan returns the group whose left-closed right-open interval of cumulative
weights contains the sample (the first cumulative boundary the sample is
strictly below); in particular with weights `[0.5, 0.5]` a sample of exactly
`0.5` resolves to the second group and `0.0` to the first. -/
theorem C2_boundary_semantics :
    (∀ (groups : List String) (weights : List ℚ) (sample : ℚ) (i : Nat),
        groups.length = weights.length →
        (∀ w ∈ weights, 0 ≤ w) →
        weights.sum = 1 →
        0 ≤ sample → sample < 1 →
        i < groups.length →
        (weights.take i).sum ≤ sample →
        sample < (weights.take (i + 1)).sum →
        bucketAssign sample groups weights = groups[i]?)
    ∧ bucketAssign (1/2) ["control", "test"] [1/2, 1/2] = some "test"
    ∧ bucketAssign 0 ["control", "test"] [1/2, 1/2] = some "control" := by
  refine ⟨?_, ?_, ?_⟩
  · intro groups weights sample i hlen hnn _ _ _ hi hlow hhigh
    have hscan := assignScan_interval sample groups weights 0 i hlen hnn hi
      (by simpa using hlow) (by simpa using hhigh)
    simp [bucketAssign, hscan, List.getElem?_eq_getElem hi]
  · norm_num [bucketAssign, assignScan, List.zip_cons_cons]
  · norm_num [bucketAssign, assignScan, List.zip_cons_cons]

/-- Witness for C2: instantiates the interval characterization at sample
`3/4`, which lies in the second interval of `[0.5, 0.5]`. -/
theorem C2_boundary_semantics_witness :
    bucketAssign (3/4) ["control", "test"] [1/2, 1/2] = (["control", "test"] : List String)[1]? :=
  C2_boundary_semantics.1 ["control", "test"] [1/2, 1/2] (3/4) 1 rfl
    (by intro w hw; rcases List.mem_cons.mp hw with rfl | hw' <;> simp_all)
    (by norm_num) (by norm_num) (by norm_num) (by norm_num)
    (by norm_num) (by norm_num)

/-- C3: once configuration validation passes (`np.isclose` accepts the sum)
and the group list is non-empty, `get_group` is total: it returns a group
from the list and raises nothing; and whenever the bucket is at least every
computed cumulative boundary, the returned group is the last one. -/
theorem C3_totality (salt : String) (uid : PyVal) (groups : List String) (weights : List ℚ)
    (hv : npIsclose weights.sum 1 = true) (hne : groups ≠ []) :
    ∃ g, (ABSplitter.mk salt).get_group uid (some groups) (some weights) = Except.ok g
      ∧ g ∈ groups
      ∧ ((∀ i : Nat,
            (((groups.zip weights).take i).map Prod.snd).sum
              ≤ (ABSplitter.mk salt).hash_to_float uid) →
          groups.getLast? = some g) := by
  cases hscan : assignScan ((ABSplitter.mk salt).hash_to_float uid) (groups.zip weights) 0 with
  | some g =>
    refine ⟨g, ?_, ?_, ?_⟩
    · simp [ABSplitter.get_group, hv, bucketAssign, hscan]
    · obtain ⟨p, hp, hp1⟩ := assignScan_some_mem _ _ _ _ hscan
      obtain ⟨q₁, q₂⟩ := p
      exact hp1 ▸ (List.of_mem_zip hp).1
    · intro hb
      have : assignScan ((ABSplitter.mk salt).hash_to_float uid) (groups.zip weights) 0 = none :=
        assignScan_ge_none _ _ 0 fun i => by simpa using hb i
      simp [hscan] at this
  | none =>
    refine ⟨groups.getLast hne, ?_, List.getLast_mem hne, fun _ => ?_⟩
    · simp [ABSplitter.get_group, hv, bucketAssign, hscan,
        List.getLast?_eq_getLast_of_ne_nil hne]
    · exact List.getLast?_eq_getLast_of_ne_nil hne

/-- Witness for C3: the default-style configuration `["a","b"]` with weights
`[1/2, 1/2]` passes validation, and the call returns one of the groups. -/
theorem C3_totality_witness :
    ∃ g, (ABSplitter.mk "exp1").get_group (PyVal.pyInt 1) (some ["a", "b"]) (some [1/2, 1/2])
        = Except.ok g
      ∧ g ∈ (["a", "b"] : List String)
      ∧ ((∀ i : Nat,
            ((((["a", "b"] : List String).zip ([1/2, 1/2] : List ℚ)).take i).map Prod.snd).sum
              ≤ (ABSplitter.mk "exp1").hash_to_float (PyVal.pyInt 1)) →
          (["a", "b"] : List String).getLast? = some g) :=
  C3_totality "exp1" (PyVal.pyInt 1) ["a", "b"] [1/2, 1/2] npIsclose_half_half (by simp)

/-- C4 counterexample: weights `[2, -1]` contain a negative weight and sum to
1, yet `get_group` raises nothing and returns group `"a"`, refuting the claim
that every negative weight is rejected with an `InvalidConfiguration` error. -/
theorem C4_counterexample :
    (ABSplitter.mk "s").get_group (PyVal.pyInt 0) (some ["a", "b"]) (some [2, -1])
      = Except.ok "a" :=
  get_group_neg_weight_ok "s" (PyVal.pyInt 0)

/-- C4 amended: `get_group` never checks individual weight signs; a negative
weight whose total still sums to 1 within `np.isclose` tolerance passes
validation, and the call succeeds for every salt and identifier (here the
first interval `[0, 2)` captures every bucket, so `"a"` is returned). -/
theorem C4_no_negative_weight_check (salt : String) (uid : PyVal) :
    (ABSplitter.mk salt).get_group uid (some ["a", "b"]) (some [2, -1]) = Except.ok "a" :=
  get_group_neg_weight_ok salt uid

/-- C5 counterexample: groups `["a", "b"]` with the single weight `[1]` have
mismatched lengths, yet `get_group` raises nothing and returns `"a"` (the
`zip` silently drops the second group), refuting the claim that every
mismatched call fails with `InvalidConfiguration`. -/
theorem C5_counterexample :
    (ABSplitter.mk "s").get_group (PyVal.pyStr "x") (some ["a", "b"]) (some [1])
      = Except.ok "a" :=
  get_group_len_mismatch_ok "s" (PyVal.pyStr "x")

/-- C5 amended: `get_group` has no length check; a mismatched call fails only
when the full weight list's sum leaves the `np.isclose` tolerance around 1 —
so weights `[0.5, 0.5, 0.5]` with two groups do raise `ValueError` (sum 1.5),
while weights `[1]` with two groups pass validation and return a group via
silent `zip` truncation. -/
theorem C5_no_length_check (salt : String) (uid : PyVal) :
    (ABSplitter.mk salt).get_group uid (some ["a", "b"]) (some [1/2, 1/2, 1/2])
        = Except.error PyErr.valueError
    ∧ (ABSplitter.mk salt).get_group uid (some ["a", "b"]) (some [1]) = Except.ok "a" :=
  ⟨get_group_len_mismatch_err salt uid, get_group_len_mismatch_ok salt uid⟩

/-- C6: whenever the weights' sum differs from 1 by more than the `np.isclose`
tolerance `atol + rtol * |1| = 1e-8 + 1e-5`, `get_group` raises `ValueError`,
for every salt, identifier and group list alike — the validation is eager and
independent of the hash/sample computation. -/
theorem C6_sum_validation (salt : String) (uid : PyVal)
    (groups : List String) (weights : List ℚ)
    (h : 1 / 100000000 + 1 / 100000 < |weights.sum - 1|) :
    (ABSplitter.mk salt).get_group uid (some groups) (some weights)
      = Except.error PyErr.valueError := by
  have hcl : npIsclose weights.sum 1 = false := by
    simp only [npIsclose, decide_eq_false_iff_not, not_le]
    rw [abs_of_nonneg (by norm_num : (0:ℚ) ≤ 1)]
    linarith
  simp [ABSplitter.get_group, hcl]

/-- Witness for C6: weights `[0.3, 0.3]` sum to 0.6, which is farther from 1
than the tolerance, so the call errors. -/
theorem C6_sum_validation_witness :
    (ABSplitter.mk "exp1").get_group (PyVal.pyInt 7) (some ["a", "b"]) (some [3/10, 3/10])
      = Except.error PyErr.valueError :=
  C6_sum_validation "exp1" (PyVal.pyInt 7) ["a", "b"] [3/10, 3/10] (by
    have hs : ([3/10, 3/10] : List ℚ).sum = 3/5 := by
      simp [List.sum_cons]; norm_num
    rw [hs, show |(3:ℚ)/5 - 1| = 2/5 by
      rw [abs_of_nonpos (by norm_num)]; norm_num]
    norm_num)

/-- C7 counterexample: the pairs `("a_b", "c")` and `("a", "b_c")` are
distinct, yet both concatenate to the hash input `"a_b_c"` — the underscore
separator is ambiguous across salts. -/
theorem C7_counterexample :
    hashInput "a_b" (PyVal.pyStr "c") = hashInput "a" (PyVal.pyStr "b_c")
    ∧ (("a_b", PyVal.pyStr "c") : String × PyVal) ≠ ("a", PyVal.pyStr "b_c") := by
  constructor
  · decide
  · decide

/-- C7 amended: the separator is unambiguous only identifier-wise: for one
fixed salt, distinct identifiers always yield distinct hash inputs; across
different salts the underscore concatenation can collide. -/
theorem C7_fixed_salt_injective (salt v₁ v₂ : String)
    (h : hashInput salt (PyVal.pyStr v₁) = hashInput salt (PyVal.pyStr v₂)) : v₁ = v₂ := by
  have hd := congrArg String.data h
  simp only [hashInput, PyVal.render, String.data_append] at hd
  rw [List.append_assoc, List.append_assoc] at hd
  exact String.ext (List.append_cancel_left (List.append_cancel_left hd))

/-- Witness for C7's amended statement at a concrete salt and identifier. -/
theorem C7_fixed_salt_injective_witness : "x" = "x" :=
  C7_fixed_salt_injective "exp1" "x" "x" rfl

/-- C8: determinism — `get_group` is a pure function of
`(salt, identifier, groups, weights)`: two calls with identical inputs return
identical results. -/
theorem C8_deterministic (salt salt' : String) (uid uid' : PyVal)
    (gOpt gOpt' : Option (List String)) (wOpt wOpt' : Option (List ℚ))
    (hs : salt = salt') (hu : uid = uid') (hg : gOpt = gOpt') (hw : wOpt = wOpt') :
    (ABSplitter.mk salt).get_group uid gOpt wOpt
      = (ABSplitter.mk salt').get_group uid' gOpt' wOpt' := by
  subst hs; subst hu; subst hg; subst hw; rfl

/-- Witness for C8 at the demo call of the source. -/
theorem C8_deterministic_witness :
    (ABSplitter.mk "demo_test").get_group (PyVal.pyInt 12345) none none
      = (ABSplitter.mk "demo_test").get_group (PyVal.pyInt 12345) none none :=
  C8_deterministic "demo_test" "demo_test" (PyVal.pyInt 12345) (PyVal.pyInt 12345)
    none none none none rfl rfl rfl rfl

/-- C9: non-string identifiers are hashed via their string rendering, so an
integer id and its decimal string always receive the same assignment under
the same salt, groups and weights. -/
theorem C9_int_str_same_group (salt : String) (n : Int)
    (gOpt : Option (List String)) (wOpt : Option (List ℚ)) :
    (ABSplitter.mk salt).get_group (PyVal.pyInt n) gOpt wOpt
      = (ABSplitter.mk salt).get_group (PyVal.pyStr (toString n)) gOpt wOpt := rfl

/-- C10: under exact rational arithmetic, with a valid configuration (equal
lengths, non-negative weights of sum 1) and a sample in `[0, 1)`, the scan of
lines 63–68 never returns a zero-weight group: the returned name sits at an
index of strictly positive weight. -/
theorem C10_zero_weight_never_returned (sample : ℚ) (groups : List String) (weights : List ℚ)
    (g : String)
    (hlen : groups.length = weights.length) (hnn : ∀ w ∈ weights, 0 ≤ w)
    (hsum : weights.sum = 1) (h0 : 0 ≤ sample) (h1 : sample < 1)
    (hres : bucketAssign sample groups weights = some g) :
    ∃ (i : Nat) (w : ℚ), groups[i]? = some g ∧ weights[i]? = some w ∧ 0 < w := by
  cases hscan : assignScan sample (groups.zip weights) 0 with
  | none =>
    rcases assignScan_none_ge sample _ 0 hscan with hnil | hge
    · have hw : weights = [] := by
        rcases groups with _ | ⟨x, xs⟩
        · exact (List.length_eq_zero.mp hlen.symm ▸ rfl)
        · rcases weights with _ | ⟨y, ys⟩
          · rfl
          · simp [List.zip_cons_cons] at hnil
      rw [hw] at hsum
      simp at hsum
    · rw [zip_map_snd groups weights hlen, hsum] at hge
      linarith
  | some g' =>
    have hg' : g' = g := by
      simpa [bucketAssign, hscan] using hres
    obtain ⟨i, p, hp, hp1, hp2⟩ := assignScan_some_pos sample _ 0 g' h0 hscan
    obtain ⟨hg1, hg2⟩ := zip_getElem?_eq groups weights i p hp
    exact ⟨i, p.2, by rw [hg1, hp1, hg'], hg2, hp2⟩

/-- Witness for C10: with weights `[0, 1]` and sample `1/2` the scan returns
the positive-weight group `"a"`, never the zero-weight `"z"`. -/
theorem C10_zero_weight_never_returned_witness :
    ∃ (i : Nat) (w : ℚ), (["z", "a"] : List String)[i]? = some "a"
      ∧ ([0, 1] : List ℚ)[i]? = some w ∧ 0 < w :=
  C10_zero_weight_never_returned (1/2) ["z", "a"] [0, 1] "a" rfl
    (by intro w hw; rcases List.mem_cons.mp hw with rfl | hw' <;> simp_all)
    (by norm_num) (by norm_num) (by norm_num)
    (by norm_num [bucketAssign, assignScan, List.zip_cons_cons])

/-! ### Conformance of the embedded SHA-256 with the standard test vectors -/

set_option maxRecDepth 10000

/-- FIPS 180 test vector: the embedded SHA-256 digests `"abc"` correctly. -/
theorem sha256_vector_abc :
    SHA256.sha256 (utf8Encode "abc") =
      [0xba, 0x78, 0x16, 0xbf, 0x8f, 0x01, 0xcf, 0xea,
       0x41, 0x41, 0x40, 0xde, 0x5d, 0xae, 0x22, 0x23,
       0xb0, 0x03, 0x61, 0xa3, 0x96, 0x17, 0x7a, 0x9c,
       0xb4, 0x10, 0xff, 0x61, 0xf2, 0x00, 0x15, 0xad] := by decide

/-- FIPS 180 test vector: the embedded SHA-256 digests the empty string
correctly. -/
theorem sha256_vector_empty :
    SHA256.sha256 (utf8Encode "") =
      [0xe3, 0xb0, 0xc4, 0x42, 0x98, 0xfc, 0x1c, 0x14,
       0x9a, 0xfb, 0xf4, 0xc8, 0x99, 0x6f, 0xb9, 0x24,
       0x27, 0xae, 0x41, 0xe4, 0x64, 0x9b, 0x93, 0x4c,
       0xa4, 0x95, 0x99, 0x1b, 0x78, 0x52, 0xb8, 0x55] := by decide

/-- FIPS 180 two-block test vector for the embedded SHA-256. -/
theorem sha256_vector_two_blocks :
    SHA256.sha256 (utf8Encode "abcdbcdecdefdefgefghfghighijhijkijkljklmklmnlmnomnopnopq") =
      [0x24, 0x8d, 0x6a, 0x61, 0xd2, 0x06, 0x38, 0xb8,
       0xe5, 0xc0, 0x26, 0x93, 0x0c, 0x3e, 0x60, 0x39,
       0xa3, 0x3c, 0xe4, 0x59, 0x64, 0xff, 0x21, 0x67,
       0xf6, 0xec, 0xed, 0xd4, 0x19, 0xdb, 0x06, 0xc1] := by decide

end HashSplit
